import Mathlib

/-!
Verification of the discrete-HMM forward-backward engine of
src/IEProject2.py (isolated whole-word recognition via concatenated
letter/silence sub-models).

Matrices are embedded as lists of rows over ℚ (exact rational
arithmetic standing for the exact real semantics of the float code).
The accumulator tables are embedded as total functions with the
"absent key reads as zero" convention that the defaultdict
accumulators of the source implement.  Values that can be IEEE NaN
are embedded as Option ℚ with none standing for NaN.
-/

namespace IEProject

set_option maxRecDepth 8000

/-- Entry of a matrix represented as a list of rows; reads outside the
stored rows or columns return 0 (the numpy code only ever indexes in
range, so the default is never observed on the inputs the source uses). -/
def entry (M : List (List ℚ)) (i j : ℕ) : ℚ := (M.getD i []).getD j 0

/-- Builds an m × n matrix as a list of rows from an entry function
(mirrors allocating a numpy array and filling every entry). -/
def mkMat (m n : ℕ) (f : ℕ → ℕ → ℚ) : List (List ℚ) :=
  (List.range m).map (fun i => (List.range n).map (fun j => f i j))

/-- Divide every entry of a row by q (numpy vector division). -/
def divRow (q : ℚ) (r : List ℚ) : List ℚ := r.map (fun x => x / q)

/-- Association-list lookup, embedding Python dict lookup with keys
compared by equality. -/
def assocLookup {κ α : Type} [DecidableEq κ] (l : List (κ × α)) (s : κ) : Option α :=
  match l with
  | [] => none
  | p :: rest => if p.1 = s then some p.2 else assocLookup rest s

/-- Shallow embedding of the state-graph data of class HMM
(src/IEProject2.py lines 199-218): transitions is the
num_states × num_states matrix of emitting-arc probabilities,
emissions the num_outputs × num_states matrix indexed
(observation symbol, destination state), null_arcs the dict
origin ↦ list of (destination, probability) pairs in insertion order,
and topo_order the stored topological order of the states. -/
structure HMM where
  num_states : ℕ
  num_outputs : ℕ
  transitions : List (List ℚ)
  emissions : List (List ℚ)
  null_arcs : List (ℕ × List (ℕ × ℚ))
  topo_order : List ℕ

/-- One forward null-arc update for origin s and arc (destination, p):
row[destination] += row[s] * p (src line 338 of the commented forward
recursion, and lines 388-391 of forward_log). -/
def nullArcStepFwd (s : ℕ) (row : List ℚ) (arc : ℕ × ℚ) : List ℚ :=
  row.set arc.1 (row.getD arc.1 0 + row.getD s 0 * arc.2)

/-- Forward null-arc propagation through one trellis row, visiting
origins in topo_order and each origin's arcs in dict order
(src lines 333-338 and 383-391). -/
def nullPassFwd (m : HMM) (row : List ℚ) : List ℚ :=
  m.topo_order.foldl (fun r s =>
    match assocLookup m.null_arcs s with
    | none => r
    | some arcs => arcs.foldl (nullArcStepFwd s) r) row

/-- One backward null-arc update for origin s and arc (destination, p):
row[s] += row[destination] * p (src line 417). -/
def nullArcStepBwd (s : ℕ) (row : List ℚ) (arc : ℕ × ℚ) : List ℚ :=
  row.set s (row.getD s 0 + row.getD arc.1 0 * arc.2)

/-- Backward null-arc propagation through one trellis row, visiting
origins in reverse topological order (src lines 413-417). -/
def nullPassBwd (m : HMM) (row : List ℚ) : List ℚ :=
  m.topo_order.reverse.foldl (fun r s =>
    match assocLookup m.null_arcs s with
    | none => r
    | some arcs => arcs.foldl (nullArcStepBwd s) r) row

/-- Emitting contribution of one backward step: entry i is
Σ_j transitions[i][j] · emissions[obs][j] · bNext[j], which is
np.dot(betas_[t+1], (transitions * emissions[obs]).T) of src line 410. -/
def backwardEmitRow (m : HMM) (obs : ℕ) (bNext : List ℚ) : List ℚ :=
  (List.range m.num_states).map (fun i =>
    ∑ j ∈ Finset.range m.num_states,
      entry m.transitions i j * entry m.emissions obs j * bNext.getD j 0)

/-- Rows t, t+1, ..., T of the backward trellis: data holds the
remaining observations data[t:], Q the remaining scale factors Q[t:],
and bT the already scaled final row betas[T]
(the loop of HMM.backward, src lines 407-419). -/
def backwardCore (m : HMM) : List ℕ → List ℚ → List ℚ → List (List ℚ)
  | [], _, bT => [bT]
  | obs :: rest, Q, bT =>
    let tail := backwardCore m rest Q.tail bT
    divRow (Q.headD 1) (nullPassBwd m (backwardEmitRow m obs (tail.headD []))) :: tail

/-- Embeds HMM.backward (src lines 395-422): betas[T] is the supplied
terminal distribution (default all ones) divided by Q[-1]; every
earlier row is the emitting contribution from the next row, then the
reverse-topological null-arc pass, then division by Q[t]. -/
def backward (m : HMM) (data : List ℕ) (Q : List ℚ) (init_beta : Option (List ℚ)) :
    List (List ℚ) :=
  let b0 := init_beta.getD (List.replicate m.num_states 1)
  backwardCore m data Q (divRow (Q.getLastD 1) b0)

/-- The initial distribution used by the forward passes: the supplied
init_prob, or the uniform distribution over the states
(src lines 316-317). -/
def initRow (m : HMM) (init_prob : Option (List ℚ)) : List ℚ :=
  init_prob.getD (List.replicate m.num_states (1 / (m.num_states : ℚ)))

/-- Q[0]: the sum of the initial distribution (src line 321). -/
def forward_Q0 (m : HMM) (init_prob : Option (List ℚ)) : ℚ := (initRow m init_prob).sum

/-- The alpha trellis exactly as HMM.forward leaves it
(src lines 310-343): row 0 is the initial distribution divided by
Q[0]; the recursion that would fill rows 1..T sits inside a string
literal (dead code), so those rows keep their np.zeros initialization. -/
def forward_alphas (m : HMM) (data : List ℕ) (init_prob : Option (List ℚ)) :
    List (List ℚ) :=
  divRow (forward_Q0 m init_prob) (initRow m init_prob)
    :: List.replicate data.length (List.replicate m.num_states 0)

/-- The scale factors exactly as HMM.forward leaves them: np.ones with
only Q[0] overwritten (src lines 314 and 321). -/
def forward_Qs (m : HMM) (data : List ℕ) (init_prob : Option (List ℚ)) : List ℚ :=
  forward_Q0 m init_prob :: List.replicate data.length 1

/-- Return value of HMM.forward (src lines 310-361): the method body
contains no return statement, so a caller that expects the pair
(alpha trellis, scale factors) receives Python None, embedded as none. -/
def forward_ret (m : HMM) (data : List ℕ) (init_prob : Option (List ℚ)) :
    Option (List (List ℚ) × List ℚ) := none

/-- Emitting contribution of one forward step: entry j is
Σ_i aPrev[i] · transitions[i][j] · emissions[obs][j], which is
np.dot(alphas_[t-1], transitions * emissions[obs]) of src line 331. -/
def forwardEmitRow (m : HMM) (obs : ℕ) (aPrev : List ℚ) : List ℚ :=
  (List.range m.num_states).map (fun j =>
    ∑ i ∈ Finset.range m.num_states,
      aPrev.getD i 0 * entry m.transitions i j * entry m.emissions obs j)

/-- Rows 1..T of the scaled forward recursion contained in the string
literal inside HMM.forward (src lines 324-343), given the previous
normalized row; returns the rows paired with their scale factors Q[t].
The null-arc pass runs only while further observations remain (t < T),
matching the guard of src line 333. -/
def forwardCommentedCore (m : HMM) : List ℕ → List ℚ → List (List ℚ) × List ℚ
  | [], _ => ([], [])
  | obs :: rest, aPrev =>
    let e := forwardEmitRow m obs aPrev
    let e2 := if rest.isEmpty then e else nullPassFwd m e
    let q := e2.sum
    let a := divRow q e2
    let res := forwardCommentedCore m rest a
    (a :: res.1, q :: res.2)

/-- The full scaled forward pass that the commented-out block of
HMM.forward describes (src lines 311-343): the normalized alpha
trellis together with the scale factors Q[0..T]. -/
def forwardCommented (m : HMM) (data : List ℕ) (init_prob : Option (List ℚ)) :
    List (List ℚ) × List ℚ :=
  let a0 := divRow (forward_Q0 m init_prob) (initRow m init_prob)
  let res := forwardCommentedCore m data a0
  (a0 :: res.1, forward_Q0 m init_prob :: res.2)

/-- Embeds HMM.forward_log (src lines 363-393) with every log-domain
value represented by its exponential, so that logsumexp over sums of
logs becomes a sum of products and np.log 0 becomes 0: row t of the
result holds exp(log_alphas[t]).  No normalization is performed and
null arcs are propagated only for t < T, matching the source. -/
def forwardLogExpCore (m : HMM) : List ℕ → List ℚ → List (List ℚ)
  | [], _ => []
  | obs :: rest, aPrev =>
    let e := forwardEmitRow m obs aPrev
    let e2 := if rest.isEmpty then e else nullPassFwd m e
    e2 :: forwardLogExpCore m rest e2

/-- The exponential image of the full log-domain forward trellis of
HMM.forward_log, starting from the (default uniform) initial
distribution of src lines 368-372. -/
def forwardLogExp (m : HMM) (data : List ℕ) (init_prob : Option (List ℚ)) :
    List (List ℚ) :=
  let a0 := initRow m init_prob
  a0 :: forwardLogExpCore m data a0

/-- Per-timestep state posterior of a trellis row: the row divided by
its sum. -/
def normalizeRow (r : List ℚ) : List ℚ := divRow r.sum r

/-- The arc posterior matrix step3 at time t: entry (i, j) is
alphas[t-1][i] · transitions[i][j] · emissions[obs][j] · betas[t][j]
(src lines 350-352 and 483-485). -/
def step3Mat (m : HMM) (alphas betas : List (List ℚ)) (obs t : ℕ) : List (List ℚ) :=
  mkMat m.num_states m.num_states (fun i j =>
    entry alphas (t - 1) i * entry m.transitions i j * entry m.emissions obs j *
      entry betas t j)

/-- Accumulator table output_arc_counts indexed
(observation symbol, origin, destination). -/
abbrev Counts := ℕ → ℕ → ℕ → ℚ

/-- Sparse null-arc accumulator output_arc_counts_null: a defaultdict
whose absent keys read as zero. -/
abbrev NullCounts := ℕ → ℕ → ℚ

/-- Zeroed output_arc_counts, as produced by HMM.reset_counters
(src line 503). -/
def zeroCounts : Counts := fun _ _ _ => 0

/-- Empty output_arc_counts_null, as produced by HMM.reset_counters
(src line 504). -/
def zeroNullCounts : NullCounts := fun _ _ => 0

/-- One loop iteration of the emitting-arc accumulation of
HMM.forward_backward (src lines 481-487): the step3 posterior matrix
for time t is added into the output_arc_counts slice of the symbol
observed at t. -/
def fbCountStep (m : HMM) (alphas betas : List (List ℚ)) (train : List ℕ)
    (c : Counts) (t : ℕ) : Counts :=
  fun o i j =>
    if o = train.getD (t - 1) 0 then
      c o i j + entry (step3Mat m alphas betas (train.getD (t - 1) 0) t) i j
    else c o i j

/-- The emitting-arc accumulator after the t = 1..T loop of
HMM.forward_backward; the fold starts from the zeroed table because the
body calls reset_counters first (src line 478). -/
def fbCounts (m : HMM) (alphas betas : List (List ℚ)) (train : List ℕ) : Counts :=
  (List.range' 1 train.length).foldl (fbCountStep m alphas betas train) zeroCounts

/-- The null-arc accumulator after the t = 1..T-1 loop of
HMM.forward_backward (src lines 490-494): for every null arc ix → iy,
alphas[t][ix] · p · betas[t][iy] · Q[t] is added into the (ix, iy)
entry; the fold starts from the empty defaultdict of reset_counters. -/
def fbNullCounts (m : HMM) (alphas betas : List (List ℚ)) (Q : List ℚ)
    (train : List ℕ) : NullCounts :=
  (List.range' 1 (train.length - 1)).foldl (fun nc t =>
    m.null_arcs.foldl (fun nc2 sa =>
      sa.2.foldl (fun nc3 a =>
        fun x y =>
          if x = sa.1 ∧ y = a.1 then
            nc3 x y + entry alphas t sa.1 * a.2 * entry betas t a.1 * Q.getD t 1
          else nc3 x y) nc2) nc) zeroNullCounts

/-- The accumulation phase of HMM.forward_backward (src lines 478-494):
reset_counters zeroes both accumulators, then the two loops add the
posteriors of the current sequence.  The accumulator contents from
before the call are parameters only so that their being discarded by
the reset is visible in the statement of the theorems below. -/
def fbAccumulate (m : HMM) (alphas betas : List (List ℚ)) (Q : List ℚ)
    (train : List ℕ) (prevCounts : Counts) (prevNull : NullCounts) :
    Counts × NullCounts :=
  (fbCounts m alphas betas train, fbNullCounts m alphas betas Q train)

/-- trans_sum: output_arc_counts summed over the symbol axis
(src line 518). -/
def transSum (m : HMM) (c : Counts) (i j : ℕ) : ℚ :=
  ∑ o ∈ Finset.range m.num_outputs, c o i j

/-- trans_sum_row: trans_sum summed over the destination axis
(src line 519). -/
def transSumRow (m : HMM) (c : Counts) (i : ℕ) : ℚ :=
  ∑ j ∈ Finset.range m.num_states, transSum m c i j

/-- sum(output_arc_counts_null[ix].values()) of src lines 523 and 529:
the null-count keys populated during accumulation are exactly the
model's null arcs, so the sum ranges over the arcs leaving ix. -/
def nullValsSum (m : HMM) (nc : NullCounts) (i : ℕ) : ℚ :=
  (((assocLookup m.null_arcs i).getD []).map (fun a => nc i a.1)).sum

/-- The shared denominator of the transition and null-arc updates:
all expected mass leaving state i (src lines 523 and 529). -/
def outDenominator (m : HMM) (c : Counts) (nc : NullCounts) (i : ℕ) : ℚ :=
  transSumRow m c i + nullValsSum m nc i

/-- Embeds the transition re-estimation of HMM.update_params
(src lines 518-524). -/
def update_transitions (m : HMM) (c : Counts) (nc : NullCounts) : List (List ℚ) :=
  mkMat m.num_states m.num_states (fun i j => transSum m c i j / outDenominator m c nc i)

/-- Embeds the null-arc re-estimation of HMM.update_params
(src lines 526-529). -/
def update_null_arcs (m : HMM) (c : Counts) (nc : NullCounts) :
    List (ℕ × List (ℕ × ℚ)) :=
  m.null_arcs.map (fun sa =>
    (sa.1, sa.2.map (fun a => (a.1, nc sa.1 a.1 / outDenominator m c nc sa.1))))

/-- Embeds the emission re-estimation of HMM.update_params
(src lines 514-515): output_arc_counts / output_arc_counts.sum(axis=0),
a table still indexed (symbol, origin, destination).  Rational division
by zero is 0, which matches np.nan_to_num coercing the 0/0 entries of
arcs with zero total count to 0. -/
def update_emissions (m : HMM) (c : Counts) : Counts :=
  fun o i j => c o i j / transSum m c i j

/-- Transcribes the emission update formula asserted by the
specification for claim C2 (destination-keyed: counts summed over the
origin axis, then normalized over symbols).  Written from the spec
text, for comparison only; the source computes update_emissions
instead. -/
def claimEmission (m : HMM) (c : Counts) (o j : ℕ) : ℚ :=
  (∑ i ∈ Finset.range m.num_states, c o i j) /
    (∑ oo ∈ Finset.range m.num_outputs, ∑ i ∈ Finset.range m.num_states, c oo i j)

/-- Possibly-NaN rational value: none stands for IEEE NaN. -/
abbrev MaybeNaN := Option ℚ

/-- NaN-propagating addition. -/
def nanAdd (a b : MaybeNaN) : MaybeNaN :=
  match a, b with
  | some x, some y => some (x + y)
  | _, _ => none

/-- Embeds the tail of HMM.forward (src lines 354-360): if the total
probability is NaN the code prints a warning and replaces the total by
1.0, and in every case it then adds the final step3 matrix into
output_arc_counts[obs].  Result: the total value actually kept, whether
an exception is raised (never), and the updated accumulator slice. -/
def forwardNanTail (total : MaybeNaN) (counts step3 : ℕ → ℕ → MaybeNaN) :
    MaybeNaN × Bool × (ℕ → ℕ → MaybeNaN) :=
  (match total with
   | none => some 1
   | some p => some p,
   false,
   fun i j => nanAdd (counts i j) (step3 i j))

/-- Embeds the normalization assertion of HMM.forward_backward
(src line 486): assert np.sum(step3) - 1 < 1e-6.  Returns true when
the assertion passes. -/
def posterior_assert_passes (total : ℚ) : Bool :=
  decide (total - 1 < 1 / 1000000)

/-- Embeds HMM.forward_backward (src lines 471-500).  Its first
statement unpacks the pair that HMM.forward is expected to return;
HMM.forward returns None, so the unpacking raises TypeError and nothing
after it ever executes.  The other branch transcribes the rest of the
body: backward pass, accumulation, and the optional parameter update
controlled by the update_params flag (default True). -/
def forward_backward (m : HMM) (prevCounts : Counts) (prevNull : NullCounts)
    (train : List ℕ) (init_prob init_beta : Option (List ℚ)) (updateFlag : Bool) :
    Except String
      (List (List ℚ) × List (List ℚ) × List ℚ × Counts × NullCounts ×
        Option (List (List ℚ) × List (ℕ × List (ℕ × ℚ)))) :=
  match forward_ret m train init_prob with
  | none => Except.error "TypeError: cannot unpack non-iterable NoneType object"
  | some aq =>
    let alphas := aq.1
    let Q := aq.2
    let betas := backward m train Q init_beta
    let acc := fbAccumulate m alphas betas Q train prevCounts prevNull
    let upd :=
      if updateFlag then
        some (update_transitions m acc.1 acc.2, update_null_arcs m acc.1 acc.2)
      else none
    Except.ok (alphas, betas, Q, acc.1, acc.2, upd)

/-- The module-level 3-state letter transition matrix
(src lines 548-550). -/
def transition_prob_matrix : List (List ℚ) :=
  [[4/5, 1/5, 0], [0, 4/5, 1/5], [0, 0, 4/5]]

/-- The module-level 5-state silence transition matrix
(src lines 583-589). -/
def silence_transition_prob_matrix : List (List ℚ) :=
  [[1/4, 1/4, 1/4, 1/4, 0],
   [0, 1/4, 1/4, 1/4, 1/4],
   [0, 0, 1/4, 1/4, 1/4],
   [0, 0, 0, 1/4, 1/4],
   [0, 0, 0, 0, 3/4]]

/-- Functional update of one matrix entry (a numpy single-cell
assignment). -/
def setEntryM (M : ℕ → ℕ → ℚ) (r c : ℕ) (v : ℚ) : ℕ → ℕ → ℚ :=
  fun i j => if i = r ∧ j = c then v else M i j

/-- Functional update of a rectangular block (a numpy slice
assignment M[r0:r0+rows, c0:c0+cols] = B). -/
def setBlockM (M : ℕ → ℕ → ℚ) (r0 c0 rows cols : ℕ) (B : List (List ℚ)) :
    ℕ → ℕ → ℚ :=
  fun i j =>
    if r0 ≤ i ∧ i < r0 + rows ∧ c0 ≤ j ∧ j < c0 + cols then entry B (i - r0) (j - c0)
    else M i j

/-- The membership guard of the effective (last) definition of the
composite builder (src lines 1064-1065): it raises ValueError when a
letter of the word has no registered prototype model. -/
def combined_letters_known (word : List Char)
    (letterHMMs : List (Char × List (List ℚ))) : Bool :=
  word.all (fun c => (assocLookup letterHMMs c).isSome)

/-- Embeds the transition-matrix construction of the effective (last)
definition of the composite builder (src lines 1044-1091), in the order
the assignments execute: zeros, leading silence block, per-letter block
copies, the pattern-override loop over the letter states
(src lines 1079-1085), and finally the trailing silence block.  The
letter lookup is total here because the guard combined_letters_known
models the ValueError raised for unknown letters. -/
def combined_transitions (word : List Char)
    (letterHMMs : List (Char × List (List ℚ))) (silT : List (List ℚ)) :
    ℕ → ℕ → ℚ :=
  let ns := 5 + 5 + 3 * word.length
  let M1 := setBlockM (fun _ _ => 0) 0 0 5 5 silT
  let M2 := word.enum.foldl (fun M p =>
    setBlockM M (5 + 3 * p.1) (5 + 3 * p.1) 3 3
      ((assocLookup letterHMMs p.2).getD [])) M1
  let M3 := (List.range' 5 (ns - 10)).foldl (fun M i =>
    if (i - 5) % 3 = 2 then
      let Ma := setEntryM M i i (4/5)
      if i + 1 < ns - 5 then setEntryM Ma i (i + 1) (1/5) else Ma
    else
      setBlockM M i i 1 3 [transition_prob_matrix.getD ((i - 5) % 3) []]) M2
  setBlockM M3 (ns - 5) (ns - 5) 5 5 silT

/-- A degenerate 1-state model: transition matrix [[1.0]] and
P(symbol 0 | state 0) = 1, the certainty scenario of the spec. -/
def m1 : HMM := ⟨1, 1, [[1]], [[1]], [], [0]⟩

/-- A 2-state model with one null arc 0 → 1 of probability 1/2, used
for concrete evaluations. -/
def mW : HMM := ⟨2, 2, [[0, 1], [0, 0]], [[1, 0], [0, 1]], [(0, [(1, 1/2)])], [0, 1]⟩

/-- Concrete accumulated arc counts: one count for symbol 0 on arc
0 → 1 and one count for symbol 1 on arc 1 → 1. -/
def cW : Counts := fun o i j =>
  if o = 0 ∧ i = 0 ∧ j = 1 then 1 else if o = 1 ∧ i = 1 ∧ j = 1 then 1 else 0

/-- Concrete accumulated null-arc counts: 3 on the null arc 0 → 1. -/
def ncW : NullCounts := fun i d => if i = 0 ∧ d = 1 then 3 else 0

/-- Concrete nonzero prior accumulator contents, standing for counts
contributed by previously processed sequences. -/
def prevC : Counts := fun _ _ _ => 5

/-- The word "a" with its registered 3-state prototype, the concrete
input for the composite-builder evaluation. -/
def lhmmsA : List (Char × List (List ℚ)) := [('a', transition_prob_matrix)]

/-- A concrete accumulator slice holding ordinary (non-NaN) values. -/
def nanC0 : ℕ → ℕ → MaybeNaN := fun _ _ => some 0

/-- A concrete step3 posterior matrix whose entries are all NaN, as
produced when a degenerate sequence zeroes every reachable emission. -/
def nanS3 : ℕ → ℕ → MaybeNaN := fun _ _ => none

theorem headD_eq_getD {α : Type} (l : List α) (d : α) : l.headD d = l.getD 0 d := by
  cases l <;> rfl

theorem tail_getD {α : Type} (l : List α) (t : ℕ) (d : α) :
    l.tail.getD t d = l.getD (t + 1) d := by
  cases l <;> simp [List.getD]

theorem getLastD_eq_getD {α : Type} (l : List α) (d : α) :
    l.getLastD d = l.getD (l.length - 1) d := by
  rw [List.getLastD_eq_getLast?, List.getLast?_eq_getElem?, List.getD_eq_getElem?_getD]

theorem entry_mkMat (f : ℕ → ℕ → ℚ) (m n i j : ℕ) (hi : i < m) (hj : j < n) :
    entry (mkMat m n f) i j = f i j := by
  simp [entry, mkMat, List.getD_eq_getElem?_getD, List.getElem?_map,
    List.getElem?_range hi, List.getElem?_range hj]

theorem assocLookup_map {α β : Type} (g : ℕ → α → β) :
    ∀ (l : List (ℕ × α)) (s : ℕ),
      assocLookup (l.map (fun p => (p.1, g p.1 p.2))) s =
        (assocLookup l s).map (fun a => g s a)
  | [], _ => rfl
  | p :: rest, s => by
    by_cases h : p.1 = s
    · subst h
      simp [assocLookup]
    · simp [assocLookup, h, assocLookup_map g rest s]

theorem fbCountStep_foldl (m : HMM) (alphas betas : List (List ℚ)) (train : List ℕ) :
    ∀ (ts : List ℕ) (c : Counts) (o i j : ℕ),
      ts.foldl (fbCountStep m alphas betas train) c o i j =
        c o i j + (ts.map (fun t =>
          if o = train.getD (t - 1) 0 then
            entry (step3Mat m alphas betas (train.getD (t - 1) 0) t) i j
          else 0)).sum
  | [], c, o, i, j => by simp
  | t :: ts, c, o, i, j => by
    rw [List.foldl_cons,
      fbCountStep_foldl m alphas betas train ts (fbCountStep m alphas betas train c t) o i j]
    simp only [List.map_cons, List.sum_cons, fbCountStep]
    by_cases h : o = train.getD (t - 1) 0
    · rw [if_pos h, if_pos h]
      ring
    · rw [if_neg h, if_neg h]
      ring

theorem backwardCore_spec (m : HMM) (bT : List ℚ) :
    ∀ (data : List ℕ) (Q : List ℚ),
      (backwardCore m data Q bT).length = data.length + 1 ∧
      (backwardCore m data Q bT).getD data.length [] = bT ∧
      ∀ t, t < data.length →
        (backwardCore m data Q bT).getD t [] =
          divRow (Q.getD t 1)
            (nullPassBwd m (backwardEmitRow m (data.getD t 0)
              ((backwardCore m data Q bT).getD (t + 1) [])))
  | [], Q => by
    refine ⟨rfl, rfl, ?_⟩
    intro t ht
    exact absurd ht (Nat.not_lt_zero t)
  | obs :: rest, Q => by
    obtain ⟨ih1, ih2, ih3⟩ := backwardCore_spec m bT rest Q.tail
    have hcore : backwardCore m (obs :: rest) Q bT =
        divRow (Q.headD 1)
          (nullPassBwd m (backwardEmitRow m obs
            ((backwardCore m rest Q.tail bT).headD []))) ::
          backwardCore m rest Q.tail bT := rfl
    refine ⟨?_, ?_, ?_⟩
    · rw [hcore]
      simp [ih1]
    · rw [hcore]
      simpa using ih2
    · intro t ht
      cases t with
      | zero =>
        rw [hcore]
        simp only [List.getD_cons_zero, List.getD_cons_succ]
        rw [headD_eq_getD Q 1, headD_eq_getD (backwardCore m rest Q.tail bT) []]
      | succ t2 =>
        have ht2 : t2 < rest.length := by
          simpa using Nat.lt_of_succ_lt_succ ht
        rw [hcore]
        simp only [List.getD_cons_succ]
        rw [ih3 t2 ht2, tail_getD]

/-- C7: for every model, observation sequence of length T and
scale-factor vector Q of length T + 1, HMM.backward sets betas[T] to
the supplied terminal distribution (default all ones) divided by Q[T],
and computes each earlier row t as the emitting contribution
Σ_j transitions[i][j] · emissions[obs[t]][j] · beta[t+1][j], followed
by the reverse-topological null-arc pass, followed by division by
Q[t]. -/
theorem c7_backward (m : HMM) (data : List ℕ) (Q : List ℚ)
    (init_beta : Option (List ℚ)) (hQ : Q.length = data.length + 1) :
    (backward m data Q init_beta).length = data.length + 1 ∧
    (backward m data Q init_beta).getD data.length [] =
      divRow (Q.getD data.length 1)
        (init_beta.getD (List.replicate m.num_states 1)) ∧
    (∀ t, t < data.length →
      (backward m data Q init_beta).getD t [] =
        divRow (Q.getD t 1)
          (nullPassBwd m (backwardEmitRow m (data.getD t 0)
            ((backward m data Q init_beta).getD (t + 1) [])))) ∧
    (∀ obs bNext i, i < m.num_states →
      (backwardEmitRow m obs bNext).getD i 0 =
        ∑ j ∈ Finset.range m.num_states,
          entry m.transitions i j * entry m.emissions obs j * bNext.getD j 0) := by
  have hb : backward m data Q init_beta =
      backwardCore m data Q
        (divRow (Q.getLastD 1) (init_beta.getD (List.replicate m.num_states 1))) := rfl
  obtain ⟨h1, h2, h3⟩ := backwardCore_spec m
    (divRow (Q.getLastD 1) (init_beta.getD (List.replicate m.num_states 1))) data Q
  refine ⟨by rw [hb]; exact h1, ?_, ?_, ?_⟩
  · rw [hb, h2, getLastD_eq_getD, hQ]
    simp
  · intro t ht
    rw [hb]
    exact h3 t ht
  · intro obs bNext i hi
    simp [backwardEmitRow, List.getD_eq_getElem?_getD, List.getElem?_map,
      List.getElem?_range hi]

/-- Witness for C7 at a concrete model with a null arc and a concrete
sequence and scale vector. -/
theorem c7_backward_witness :
    ([2, 3] : List ℚ).length = ([0] : List ℕ).length + 1 ∧
    (backward mW [0] [2, 3] none).getD 0 [] =
      divRow (([2, 3] : List ℚ).getD 0 1)
        (nullPassBwd mW (backwardEmitRow mW (([0] : List ℕ).getD 0 0)
          ((backward mW [0] [2, 3] none).getD 1 []))) :=
  ⟨rfl, (c7_backward mW [0] [2, 3] none rfl).2.2.1 0 (by decide)⟩

/-- C6: HMM.update_params re-estimates every emitting transition i → j
as the arc counts at (i, j) summed over symbols divided by the total
expected mass leaving i (the counts summed over symbols and
destinations plus the null-arc counts of i), and every null arc i → d
as its accumulated count divided by the same denominator. -/
theorem c6_update_params (m : HMM) (c : Counts) (nc : NullCounts) :
    (∀ i j, i < m.num_states → j < m.num_states →
      entry (update_transitions m c nc) i j =
        (∑ o ∈ Finset.range m.num_outputs, c o i j) /
          ((∑ jj ∈ Finset.range m.num_states,
              ∑ o ∈ Finset.range m.num_outputs, c o i jj) +
            nullValsSum m nc i)) ∧
    (∀ s arcs, assocLookup m.null_arcs s = some arcs →
      assocLookup (update_null_arcs m c nc) s =
        some (arcs.map (fun a => (a.1,
          nc s a.1 /
            ((∑ jj ∈ Finset.range m.num_states,
                ∑ o ∈ Finset.range m.num_outputs, c o s jj) +
              nullValsSum m nc s))))) := by
  constructor
  · intro i j hi hj
    rw [update_transitions, entry_mkMat _ _ _ _ _ hi hj]
    rfl
  · intro s arcs h
    have hmap := assocLookup_map
      (fun s2 arcs2 => arcs2.map (fun a => (a.1, nc s2 a.1 / outDenominator m c nc s2)))
      m.null_arcs s
    show assocLookup (m.null_arcs.map (fun sa =>
      (sa.1, sa.2.map (fun a => (a.1, nc sa.1 a.1 / outDenominator m c nc sa.1))))) s = _
    rw [hmap, h]
    rfl

/-- Witness for C6 at a concrete model, arc-count table and null-count
table. -/
theorem c6_update_params_witness :
    0 < mW.num_states ∧ 1 < mW.num_states ∧
    entry (update_transitions mW cW ncW) 0 1 =
      (∑ o ∈ Finset.range mW.num_outputs, cW o 0 1) /
        ((∑ jj ∈ Finset.range mW.num_states,
            ∑ o ∈ Finset.range mW.num_outputs, cW o 0 jj) +
          nullValsSum mW ncW 0) :=
  ⟨by decide, by decide, (c6_update_params mW cW ncW).1 0 1 (by decide) (by decide)⟩

/-- C2 (amended): after HMM.update_params the emission table is keyed
by (symbol, origin, destination): the new value for symbol o on arc
(i, j) is counts[o][i][j] divided by the counts at (i, j) summed over
symbols, and any arc whose counts are all zero keeps its emissions at
zero (np.nan_to_num coerces the 0/0 entries to 0). -/
theorem c2_emissions_arc_keyed (m : HMM) (c : Counts) :
    (∀ o i j, update_emissions m c o i j =
      c o i j / ∑ oo ∈ Finset.range m.num_outputs, c oo i j) ∧
    (∀ o i j, o < m.num_outputs → (∀ oo, oo < m.num_outputs → c oo i j = 0) →
      update_emissions m c o i j = 0) := by
  constructor
  · intro o i j
    rfl
  · intro o i j ho h0
    have hz : c o i j = 0 := h0 o ho
    simp [update_emissions, hz, zero_div]

/-- Witness for the amended C2 at a concrete model and the zero
count table. -/
theorem c2_emissions_witness :
    0 < mW.num_outputs ∧ update_emissions mW zeroCounts 0 0 0 = 0 :=
  ⟨by decide, (c2_emissions_arc_keyed mW zeroCounts).2 0 0 0 (by decide) (fun _ _ => rfl)⟩

/-- C2 counterexample: with one count for symbol 0 on arc 0 → 1 and
one count for symbol 1 on arc 1 → 1, the code's updated emission of
symbol 0 at destination 1 is 1 from origin 0 but 0 from origin 1, so
the table is not keyed by (symbol, destination) alone, and neither
value equals the destination-keyed quotient 1/2 the claim asserts. -/
theorem c2_counterexample :
    update_emissions mW cW 0 0 1 = 1 ∧
    update_emissions mW cW 0 1 1 = 0 ∧
    claimEmission mW cW 0 1 = 1 / 2 ∧
    update_emissions mW cW 0 0 1 ≠ claimEmission mW cW 0 1 ∧
    update_emissions mW cW 0 0 1 ≠ update_emissions mW cW 0 1 1 := by
  norm_num [update_emissions, claimEmission, transSum, cW, mW, Finset.sum_range_succ]

/-- C3 (amended): when the total probability computed at the end of
HMM.forward is NaN, the engine raises no exception at all: it prints a
warning, substitutes the default 1.0 for the NaN total, and still adds
the posterior matrix (NaN entries included) into the accumulators. -/
theorem c3_nan_coerced (total : MaybeNaN) (counts step3 : ℕ → ℕ → MaybeNaN) :
    (forwardNanTail total counts step3).2.1 = false ∧
    (forwardNanTail none counts step3).1 = some 1 ∧
    (∀ q : ℚ, (forwardNanTail (some q) counts step3).1 = some q) ∧
    (∀ i j, (forwardNanTail total counts step3).2.2 i j =
      nanAdd (counts i j) (step3 i j)) := by
  refine ⟨?_, rfl, fun q => rfl, fun i j => rfl⟩
  cases total <;> rfl

/-- C3 counterexample: on a NaN total the engine keeps the default
value 1.0 in place of the NaN, reports no error, and updates the
accumulators with the NaN-valued posteriors, contradicting the claimed
DegenerateSequenceError (which the source never defines). -/
theorem c3_counterexample :
    (forwardNanTail none nanC0 nanS3).1 = some 1 ∧
    (forwardNanTail none nanC0 nanS3).2.1 = false ∧
    (forwardNanTail none nanC0 nanS3).2.2 0 0 = none :=
  ⟨rfl, rfl, rfl⟩

/-- C5 (amended): the accumulation phase of HMM.forward_backward calls
reset_counters before adding the posteriors of the current sequence, so
its result is independent of the accumulator contents left by earlier
sequences, and the arc-count table after the call holds exactly the
current sequence's per-timestep posteriors summed from zero. -/
theorem c5_reset_per_invocation (m : HMM) (alphas betas : List (List ℚ))
    (Q : List ℚ) (train : List ℕ) (p p2 : Counts) (n n2 : NullCounts) :
    fbAccumulate m alphas betas Q train p n =
      fbAccumulate m alphas betas Q train p2 n2 ∧
    ∀ o i j, (fbAccumulate m alphas betas Q train p n).1 o i j =
      ((List.range' 1 train.length).map (fun t =>
        if o = train.getD (t - 1) 0 then
          entry (step3Mat m alphas betas (train.getD (t - 1) 0) t) i j
        else 0)).sum := by
  refine ⟨rfl, ?_⟩
  intro o i j
  show (List.range' 1 train.length).foldl (fbCountStep m alphas betas train)
    zeroCounts o i j = _
  rw [fbCountStep_foldl m alphas betas train (List.range' 1 train.length) zeroCounts o i j]
  simp [zeroCounts]

/-- C5 counterexample: with prior accumulator contents 5 at entry
(0, 0, 0), running the accumulation phase on a one-step sequence with
unit trellises leaves the entry at 1 (only the current sequence's
posterior), not at the preserved 5 + 1 the claim requires. -/
theorem c5_counterexample :
    prevC 0 0 0 = 5 ∧
    (fbAccumulate m1 [[1], [1]] [[1], [1]] [1, 1] [0] prevC zeroNullCounts).1 0 0 0 = 1 ∧
    (1 : ℚ) ≠ 5 + 1 := by
  refine ⟨rfl, ?_, by norm_num⟩
  norm_num [fbAccumulate, fbCounts, fbCountStep, step3Mat, mkMat, entry, m1, zeroCounts,
    List.range', List.range_succ]

/-- C8 (amended): the normalization assertion of
HMM.forward_backward checks only the one-sided condition
total − 1 < 1e-6: it passes exactly when the total is below
1 + 1e-6, so it never fails for a total below 1, however far from 1. -/
theorem c8_assert_one_sided (total : ℚ) :
    posterior_assert_passes total = true ↔ total < 1 + 1 / 1000000 := by
  simp only [posterior_assert_passes, decide_eq_true_eq]
  constructor <;> intro h <;> linarith

/-- C8 counterexample: a posterior total of 1/2 deviates from 1 by far
more than either tolerance (1e-6 of the code, 1e-5 of the spec), yet
the assertion passes, so the assertion does not fail when the total
falls below 1. -/
theorem c8_counterexample :
    posterior_assert_passes (1 / 2) = true ∧
    (1 : ℚ) - 1 / 2 > 1 / 1000000 ∧ (1 : ℚ) - 1 / 2 > 1 / 100000 := by
  refine ⟨?_, by norm_num, by norm_num⟩
  simp only [posterior_assert_passes, decide_eq_true_eq]
  norm_num

/-- C1: on the certainty scenario (1-state model, transition [[1.0]],
P(symbol 0 | state 0) = 1, sequence [0, 0, 0]) the claim requires
alpha[1] = [1] and a returned trellis with Q = [1, 1, 1, 1] — exactly
what the recursion in the string literal of HMM.forward would compute —
but the executed HMM.forward leaves alpha[1] at its np.zeros value [0]
and returns None instead of the pair (trellis, Q), so forward_backward
cannot unpack a forward trellis at all. -/
theorem c1_forward_returns_no_trellis :
    forward_ret m1 [0, 0, 0] none = none ∧
    (forward_alphas m1 [0, 0, 0] none).getD 1 [] = [0] ∧
    forwardCommented m1 [0, 0, 0] none = ([[1], [1], [1], [1]], [1, 1, 1, 1]) := by
  refine ⟨rfl, ?_, ?_⟩
  · norm_num [forward_alphas, forward_Q0, initRow, divRow, m1, List.replicate]
  · norm_num [forwardCommented, forwardCommentedCore, forwardEmitRow, nullPassFwd,
      forward_Q0, initRow, divRow, entry, m1, assocLookup, Finset.sum_range_succ,
      List.replicate, List.range_succ, List.isEmpty]

/-- C9: on the certainty scenario the live scaled recursion leaves the
normalized alpha row at t = 1 equal to [0] (its recursion is dead
code), while exponentiating and renormalizing the log-domain alphas of
forward_log yields [1] at t = 1, so the two recursions do not produce
the same per-timestep state posteriors. -/
theorem c9_scaled_log_divergence :
    (forward_alphas m1 [0, 0] none).getD 1 [] = [0] ∧
    normalizeRow ((forwardLogExp m1 [0, 0] none).getD 1 []) = [1] ∧
    (forward_alphas m1 [0, 0] none).getD 1 [] ≠
      normalizeRow ((forwardLogExp m1 [0, 0] none).getD 1 []) := by
  have h1 : (forward_alphas m1 [0, 0] none).getD 1 [] = [0] := by
    norm_num [forward_alphas, forward_Q0, initRow, divRow, m1, List.replicate]
  have h2 : normalizeRow ((forwardLogExp m1 [0, 0] none).getD 1 []) = [1] := by
    norm_num [forwardLogExp, forwardLogExpCore, forwardEmitRow, nullPassFwd,
      normalizeRow, divRow, initRow, entry, m1, assocLookup, Finset.sum_range_succ,
      List.replicate, List.range_succ, List.isEmpty]
  refine ⟨h1, h2, ?_⟩
  rw [h1, h2]
  norm_num

/-- C10: every call of HMM.forward_backward fails before reaching the
accumulation and the update_params step: the first statement unpacks
the pair HMM.forward is expected to return, but HMM.forward returns
None, so the call raises TypeError and no re-estimation ever happens,
with the default update_params=True flag or otherwise. -/
theorem c10_update_never_reached :
    forward_backward m1 zeroCounts zeroNullCounts [0] none none true =
      Except.error "TypeError: cannot unpack non-iterable NoneType object" := rfl

/-- C4: for the word "a" with its registered 3-state prototype and the
5-state silence prototype, the effective (last) composite builder
accepts the word but inserts no probability-1.0 glue transitions: the
transition from the last leading-silence state (4) into the first
letter state (5) is 0, the transition from the last letter state (7)
into the first trailing-silence state (8) is 0, and row 7 sums to 4/5
(not 1), contradicting the claimed deterministic hand-offs. -/
theorem c4_no_glue_transitions :
    combined_letters_known ['a'] lhmmsA = true ∧
    combined_transitions ['a'] lhmmsA silence_transition_prob_matrix 4 5 = 0 ∧
    combined_transitions ['a'] lhmmsA silence_transition_prob_matrix 7 8 = 0 ∧
    (∑ j ∈ Finset.range 13,
      combined_transitions ['a'] lhmmsA silence_transition_prob_matrix 7 j) = 4 / 5 := by
  refine ⟨by decide, ?_, ?_, ?_⟩ <;>
    norm_num [combined_transitions, setBlockM, setEntryM, assocLookup, lhmmsA,
      transition_prob_matrix, silence_transition_prob_matrix, entry, List.range',
      Finset.sum_range_succ, List.enum, List.enumFrom]

end IEProject
